import Mathlib

/-!
Shallow embedding of the hid-cougar Linux driver (src/module/src/hid-cougar.c)
and verification of its specification's testable properties.

Modelling conventions:
* C strings (device paths) are lists of characters; `strrchr` returning NULL is
  the `none` branch of `strrchr_pos`.
* Byte buffers are lists of naturals; a read through `List.get?` that yields
  `none` models an out-of-bounds access, so functions performing raw reads
  return `Option` results (`none` = undefined behaviour was reached).
* The global registry `cougar_udev_list` is a list of `CougarShared` records;
  kernel pointers are modelled by allocation identifiers (`id` fields), with
  `Registry.nextId` playing the role of the allocator.
* `devm_add_action` registers a release action that the driver core runs when
  probe fails or the device is unbound; the probe model applies that unwind
  explicitly on its failure paths.
-/

set_option maxHeartbeats 1000000

namespace HidCougar

/-- EV_KEY input event type (linux input-event-codes.h). -/
def EV_KEY : Nat := 1

def KEY_SPACE : Nat := 57

def KEY_F13 : Nat := 183

def KEY_F14 : Nat := 184

def KEY_F15 : Nat := 185

def KEY_F16 : Nat := 186

def KEY_F17 : Nat := 187

def KEY_F18 : Nat := 188

/-- KEY_SCREENLOCK = KEY_COFFEE (linux input-event-codes.h). -/
def KEY_SCREENLOCK : Nat := 152

/-- HID_MAX_USAGES (linux/hid.h). -/
def HID_MAX_USAGES : Nat := 12288

def HID_GD_KEYBOARD : Nat := 0x010006

def COUGAR_VENDOR_USAGE : Nat := 0xff00ff00

def COUGAR_FIELD_CODE : Nat := 1

def COUGAR_FIELD_ACTION : Nat := 2

def COUGAR_KEY_G1 : Nat := 0x83

def COUGAR_KEY_G2 : Nat := 0x84

def COUGAR_KEY_G3 : Nat := 0x85

def COUGAR_KEY_G4 : Nat := 0x86

def COUGAR_KEY_G5 : Nat := 0x87

def COUGAR_KEY_G6 : Nat := 0x78

def COUGAR_KEY_LOCK : Nat := 0x6e

/-- The static initializer of `cougar_mapping` (hid-cougar.c:56-74), including
the `{0, 0}` terminator entry that stops the scan loops. -/
def cougar_mapping : List (Nat × Nat) :=
  [(COUGAR_KEY_G6, KEY_SPACE),
   (COUGAR_KEY_G1, KEY_F13),
   (COUGAR_KEY_G2, KEY_F14),
   (COUGAR_KEY_G3, KEY_F15),
   (COUGAR_KEY_G4, KEY_F16),
   (COUGAR_KEY_G5, KEY_F17),
   (COUGAR_KEY_LOCK, KEY_SCREENLOCK),
   (0, 0)]

/-- The linear scan `for (i = 0; cougar_mapping[i][0]; i++) if (code == cougar_mapping[i][0])`
performed by `cougar_raw_event` (hid-cougar.c:301-308): first match wins, the
scan stops at the first entry whose code is 0. -/
def cougar_lookup : List (Nat × Nat) → Nat → Option Nat
  | [], _ => none
  | (c, k) :: rest, code =>
    if c = 0 then none
    else if code = c then some k
    else cougar_lookup rest code

/-- `cougar_fix_g6_mapping` (hid-cougar.c:92-106): scan the table (stopping at a
zero code) for the G6 entry and set its target to KEY_SPACE or KEY_F18 from the
`g6_is_space` module parameter.  Returns the updated table, paired with `true`
exactly when the function fell through to the `hid_warn` branch ("no mapping
defined for G6/spacebar"), in which case the table is unchanged. -/
def cougar_fix_g6_mapping (g6_is_space : Bool) : List (Nat × Nat) → List (Nat × Nat) × Bool
  | [] => ([], true)
  | (c, k) :: rest =>
    if c = 0 then ((c, k) :: rest, true)
    else if c = COUGAR_KEY_G6 then
      ((c, if g6_is_space then KEY_SPACE else KEY_F18) :: rest, false)
    else
      let r := cougar_fix_g6_mapping g6_is_space rest
      ((c, k) :: r.1, r.2)

/-- The state of `cougar_mapping` right after module initialization:
`module_hid_driver(cougar_driver)` (hid-cougar.c:343) only registers the
driver, so before any probe the table still holds its static initializer,
whatever the `g6_is_space` parameter is. -/
def cougar_module_init_table (_g6_is_space : Bool) : List (Nat × Nat) :=
  cougar_mapping

/-- The two-byte little-endian usage-count field `rdesc[115] | rdesc[116] << 8`
read by `cougar_report_fixup` (hid-cougar.c:115). -/
def usage_field (rdesc : List Nat) : Option Nat :=
  match rdesc[115]?, rdesc[116]? with
  | some lo, some hi => some (lo ||| (hi <<< 8))
  | _, _ => none

/-- `cougar_report_fixup` (hid-cougar.c:111-122).  The C condition
`rdesc[2] == 0x09 && rdesc[3] == 0x02 && (rdesc[115] | rdesc[116] << 8) >= HID_MAX_USAGES`
short-circuits, so offsets 3, 115 and 116 are only read when the earlier guards
matched.  Reads use `List.get?`; a `none` read (out-of-bounds access on the
real buffer) makes the whole function return `none`. -/
def cougar_report_fixup (rdesc : List Nat) : Option (List Nat) :=
  match rdesc[2]? with
  | none => none
  | some b2 =>
    if b2 = 0x09 then
      match rdesc[3]? with
      | none => none
      | some b3 =>
        if b3 = 0x02 then
          match rdesc[115]?, rdesc[116]? with
          | some lo, some hi =>
            if HID_MAX_USAGES ≤ lo ||| (hi <<< 8) then
              some ((rdesc.set 115 ((HID_MAX_USAGES - 1) &&& 0xff)).set 116
                ((HID_MAX_USAGES - 1) >>> 8))
            else some rdesc
          | _, _ => none
        else some rdesc
    else some rdesc

/-- Position of the last occurrence of `sep` in a path (`strrchr`); `none`
models `strrchr` returning NULL. -/
def strrchr_pos (sep : Char) : List Char → Option Nat
  | [] => none
  | c :: rest =>
    match strrchr_pos sep rest with
    | some i => some (i + 1)
    | none => if c = sep then some 0 else none

/-- `compare_device_paths` (hid-cougar.c:127-137).  In C, `n1`/`n2` are the
pointer differences `strrchr(phys, sep) - phys`; when `strrchr` returns NULL
the difference is negative, so the `n1 <= 0 || n2 <= 0` test rejects it — that
is the `none` branch here.  Otherwise the paths match iff the positions are
equal, positive, and the prefixes are byte-equal (`strncmp`). -/
def compare_device_paths (a b : List Char) (sep : Char) : Bool :=
  match strrchr_pos sep a, strrchr_pos sep b with
  | some n1, some n2 =>
    if n1 ≠ n2 ∨ n1 = 0 ∨ n2 = 0 then false
    else a.take n1 == b.take n1
  | _, _ => false

/-- `struct cougar_shared` (hid-cougar.c:76-82).  `id` models the allocation
address, `kref` the reference count, `devPhys` the `->dev->phys` path of the
interface that created the entry, `input` the shared input device pointer. -/
structure CougarShared where
  id : Nat
  kref : Nat
  enabled : Bool
  devPhys : List Char
  input : Option Nat
deriving DecidableEq

/-- `struct cougar` (hid-cougar.c:84-87); `shared` holds the id of the
registry entry this binding references (`none` = NULL). -/
structure Cougar where
  special_intf : Bool
  shared : Option Nat
deriving DecidableEq

/-- The global `cougar_udev_list` plus an allocator counter for fresh entry
ids. -/
structure Registry where
  entries : List CougarShared
  nextId : Nat
deriving DecidableEq

/-- `cougar_get_shared_data` (hid-cougar.c:142-154): scan the list for the
first entry whose device path matches, `kref_get` it and return it.  Returns
the (possibly updated) list and the found entry's id. -/
def cougar_get_shared_data : List CougarShared → List Char → List CougarShared × Option Nat
  | [], _ => ([], none)
  | s :: rest, phys =>
    if compare_device_paths phys s.devPhys '/' then
      ({ s with kref := s.kref + 1 } :: rest, some s.id)
    else
      let r := cougar_get_shared_data rest phys
      (s :: r.1, r.2)

/-- `kref_put(&shared->kref, cougar_release_shared_data)`: decrement the count
of the entry with the given id; when it reaches zero, `cougar_release_shared_data`
(hid-cougar.c:159-169) deletes the entry from the list and frees it. -/
def kref_put_shared : List CougarShared → Nat → List CougarShared
  | [], _ => []
  | s :: rest, i =>
    if s.id = i then
      if s.kref = 1 then rest
      else { s with kref := s.kref - 1 } :: rest
    else s :: kref_put_shared rest i

/-- `cougar_remove_shared_data` (hid-cougar.c:174-182): if the binding still
holds a reference, drop it and clear the pointer; otherwise do nothing. -/
def cougar_remove_shared_data (ents : List CougarShared) (c : Cougar) :
    List CougarShared × Cougar :=
  match c.shared with
  | some i => (kref_put_shared ents i, { c with shared := none })
  | none => (ents, c)

/-- Result of `cougar_bind_shared_data`: the updated registry, the updated
binding, the returned error, and whether the devm release action ended up
registered. -/
structure BindResult where
  reg : Registry
  cougar : Cougar
  error : Int
  registered : Bool
deriving DecidableEq

/-- `cougar_bind_shared_data` (hid-cougar.c:188-220).  Failure injections:
`allocFail` makes the `kzalloc` return NULL (-ENOMEM path), `addActionRes` is
the result of `devm_add_action` (nonzero makes the function release the
just-taken reference and propagate the error). -/
def cougar_bind_shared_data (reg : Registry) (c : Cougar) (phys : List Char)
    (allocFail : Bool) (addActionRes : Int) : BindResult :=
  let g := cougar_get_shared_data reg.entries phys
  match g.2 with
  | none =>
    if allocFail then
      { reg := reg, cougar := c, error := -12, registered := false }
    else
      let e : CougarShared :=
        { id := reg.nextId, kref := 1, enabled := false, devPhys := phys, input := none }
      let ents := g.1 ++ [e]
      let c' := { c with shared := some e.id }
      if addActionRes ≠ 0 then
        let r := cougar_remove_shared_data ents c'
        { reg := { entries := r.1, nextId := reg.nextId + 1 }, cougar := r.2,
          error := addActionRes, registered := false }
      else
        { reg := { entries := ents, nextId := reg.nextId + 1 }, cougar := c',
          error := 0, registered := true }
  | some i =>
    let c' := { c with shared := some i }
    if addActionRes ≠ 0 then
      let r := cougar_remove_shared_data g.1 c'
      { reg := { entries := r.1, nextId := reg.nextId }, cougar := r.2,
        error := addActionRes, registered := false }
    else
      { reg := { entries := g.1, nextId := reg.nextId }, cougar := c',
        error := 0, registered := true }

/-- One element of `hdev->inputs` as scanned by the keyboard branch of
`cougar_probe` (hid-cougar.c:263-269). -/
structure HidInput where
  registered : Bool
  input : Option Nat
deriving DecidableEq

/-- The parts of `struct hid_device` the driver reads. -/
structure Hdev where
  phys : List Char
  usage : Nat
  inputs : List HidInput
deriving DecidableEq

/-- The `list_for_each_entry_safe` scan in the keyboard branch of
`cougar_probe`: first hid_input that is registered with a non-NULL input. -/
def find_registered_input : List HidInput → Option Nat
  | [] => none
  | hi :: rest =>
    if hi.registered ∧ hi.input.isSome then hi.input
    else find_registered_input rest

/-- Set `shared->input` and `shared->enabled = true` on the entry with the
given id (keyboard branch of `cougar_probe`, hid-cougar.c:265-266). -/
def set_input_enabled : List CougarShared → Nat → Nat → List CougarShared
  | [], _, _ => []
  | s :: rest, i, inp =>
    if s.id = i then { s with input := some inp, enabled := true } :: rest
    else s :: set_input_enabled rest i inp

/-- Set `shared->enabled = false` on the entry with the given id
(`cougar_remove`, hid-cougar.c:319-320). -/
def set_disabled : List CougarShared → Nat → List CougarShared
  | [], _ => []
  | s :: rest, i =>
    if s.id = i then { s with enabled := false } :: rest
    else s :: set_disabled rest i

/-- Result of a probe: final registry, final mapping table, the drvdata left
on the device (`none` when probe failed and reset it to NULL), and the return
value. -/
structure ProbeResult where
  reg : Registry
  table : List (Nat × Nat)
  drvdata : Option Cougar
  ret : Int
deriving DecidableEq

/-- `cougar_probe` (hid-cougar.c:222-282), including the devres unwind the
driver core performs when probe returns an error: the release action
registered by `devm_add_action` (i.e. `cougar_remove_shared_data`) runs on the
failure paths that come after a successful bind.  Failure injections:
`cougarAllocFail` for the `devm_kzalloc` of the cougar struct, `parseRes` for
`hid_parse`, `hwStartRes` for `hid_hw_start`, `sharedAllocFail`/`addActionRes`
for `cougar_bind_shared_data`, `openRes` for `hid_hw_open`. -/
def cougar_probe (reg : Registry) (table : List (Nat × Nat)) (hdev : Hdev)
    (g6_is_space : Bool) (cougarAllocFail : Bool) (parseRes hwStartRes : Int)
    (sharedAllocFail : Bool) (addActionRes openRes : Int) : ProbeResult :=
  if cougarAllocFail then ⟨reg, table, none, -12⟩
  else
    let c : Cougar := { special_intf := false, shared := none }
    if parseRes ≠ 0 then ⟨reg, table, none, parseRes⟩
    else
      let c := if hdev.usage = COUGAR_VENDOR_USAGE then { c with special_intf := true } else c
      if hwStartRes ≠ 0 then ⟨reg, table, none, hwStartRes⟩
      else
        let b := cougar_bind_shared_data reg c hdev.phys sharedAllocFail addActionRes
        if b.error ≠ 0 then ⟨b.reg, table, none, b.error⟩
        else if hdev.usage = HID_GD_KEYBOARD then
          let tbl := (cougar_fix_g6_mapping g6_is_space table).1
          match find_registered_input hdev.inputs, b.cougar.shared with
          | some inp, some sid =>
            ⟨{ entries := set_input_enabled b.reg.entries sid inp, nextId := b.reg.nextId },
              tbl, some b.cougar, 0⟩
          | _, _ => ⟨b.reg, tbl, some b.cougar, 0⟩
        else if hdev.usage = COUGAR_VENDOR_USAGE then
          if openRes ≠ 0 then
            let r := cougar_remove_shared_data b.reg.entries b.cougar
            ⟨{ entries := r.1, nextId := b.reg.nextId }, table, none, openRes⟩
          else ⟨b.reg, table, some b.cougar, 0⟩
        else ⟨b.reg, table, some b.cougar, 0⟩

/-- Dereference of a `cougar_shared *` held by id.  A held kref keeps the
entry alive in the kernel, so in reachable states the id is always found. -/
def findShared : List CougarShared → Nat → Option CougarShared
  | [], _ => none
  | s :: rest, i => if s.id = i then some s else findShared rest i

/-- What `cougar_raw_event` emits: the `input_event` calls (input device,
type, code, value), the number of `input_sync` calls, the return value, and
whether the "unmapped special key code" warning fired. -/
structure RawResult where
  events : List (Nat × Nat × Nat × Nat)
  syncs : Nat
  ret : Int
  warned : Bool
deriving DecidableEq

/-- `cougar_raw_event` (hid-cougar.c:287-311).  The guard clause returns 0
without touching `data` when the binding is not the vendor interface, has no
shared entry, the entry has no input device, or the entry is not enabled.
Otherwise `data[1]`/`data[2]` are read with no bounds check; an out-of-range
read is modelled by the `none` result.  A dangling shared id (impossible while
the kref is held) is likewise `none`. -/
def cougar_raw_event (ents : List CougarShared) (table : List (Nat × Nat))
    (c : Cougar) (data : List Nat) : Option RawResult :=
  if c.special_intf = false then some ⟨[], 0, 0, false⟩
  else
    match c.shared with
    | none => some ⟨[], 0, 0, false⟩
    | some sid =>
      match findShared ents sid with
      | none => none
      | some sh =>
        match sh.input with
        | none => some ⟨[], 0, 0, false⟩
        | some inp =>
          if sh.enabled = false then some ⟨[], 0, 0, false⟩
          else
            match data[COUGAR_FIELD_CODE]?, data[COUGAR_FIELD_ACTION]? with
            | some code, some action =>
              match cougar_lookup table code with
              | some key => some ⟨[(inp, EV_KEY, key, action)], 1, 0, false⟩
              | none => some ⟨[], 0, 0, true⟩
            | _, _ => none

/-- `cougar_remove` (hid-cougar.c:313-325): disable the shared entry so the
vendor interface stops translating; the reference itself is dropped afterwards
by the devres unwind (`cougar_remove_shared_data`). -/
def cougar_remove (ents : List CougarShared) (copt : Option Cougar) : List CougarShared :=
  match copt with
  | some c =>
    match c.shared with
    | some i => set_disabled ents i
    | none => ents
  | none => ents

/-! ### Acquire/release simulation for the shared-data lifecycle -/

/-- Device-path identity: `p` has its last '/' at position `K.length > 0`, with
`K` the prefix before it.  Two paths with the same identity `K` satisfy
`compare_device_paths` (hid-cougar.c:127-137). -/
def SameDev (K p : List Char) : Prop :=
  strrchr_pos '/' p = some K.length ∧ 0 < K.length ∧ p.take K.length = K

instance (K p : List Char) : Decidable (SameDev K p) := by
  unfold SameDev
  infer_instance

/-- One registry operation by interface `i`: `acq i` is the
`cougar_bind_shared_data` performed by its probe, `rel i` the
`cougar_remove_shared_data` run by the devres unwind at its detach. -/
inductive RegOp where
  | acq : Nat → RegOp
  | rel : Nat → RegOp
deriving DecidableEq

def RegOp.idx : RegOp → Nat
  | RegOp.acq i => i
  | RegOp.rel i => i

/-- Registry plus the per-interface `struct cougar` bindings. -/
structure SimState where
  reg : Registry
  binds : Nat → Cougar

def regStep (paths : Nat → List Char) (st : SimState) : RegOp → SimState
  | RegOp.acq i =>
    let r := cougar_bind_shared_data st.reg (st.binds i) (paths i) false 0
    { reg := r.reg, binds := Function.update st.binds i r.cougar }
  | RegOp.rel i =>
    let r := cougar_remove_shared_data st.reg.entries (st.binds i)
    { reg := { entries := r.1, nextId := st.reg.nextId },
      binds := Function.update st.binds i r.2 }

def regRun (paths : Nat → List Char) (st : SimState) (ops : List RegOp) : SimState :=
  ops.foldl (regStep paths) st

/-- Initial state: empty registry, no binding holds a reference. -/
def initSim : SimState :=
  { reg := { entries := [], nextId := 0 },
    binds := fun _ => { special_intf := false, shared := none } }

/-- 1 when the binding holds a shared-data reference. -/
def heldBit (c : Cougar) : Nat := if c.shared.isSome then 1 else 0

/-- How many of the first `N` bindings hold a reference. -/
def heldCount (N : Nat) (binds : Nat → Cougar) : Nat :=
  ∑ j ∈ Finset.range N, heldBit (binds j)

/-- Invariant tying the registry to the held references of one identity
group: with no holder the registry is empty; otherwise it has exactly one
entry, whose kref equals the number of holders, whose creator's path carries
the group identity, and every held pointer names it. -/
structure GoodState (K : List Char) (N : Nat) (st : SimState) : Prop where
  empty_of_zero : heldCount N st.binds = 0 → st.reg.entries = []
  single_of_pos : 0 < heldCount N st.binds →
    ∃ e, st.reg.entries = [e] ∧ e.kref = heldCount N st.binds ∧ SameDev K e.devPhys ∧
      ∀ i, i < N → ∀ s, (st.binds i).shared = some s → s = e.id

/-- The operations interface `i` still has to perform, related to whether it
holds a reference now (`b`) and at the end (`f`): an interface acquires at
most once and releases at most once, after its acquire. -/
inductive ResidueF (i : Nat) : Bool → List RegOp → Bool → Prop where
  | nil (b : Bool) : ResidueF i b [] b
  | one_rel : ResidueF i true [RegOp.rel i] false
  | one_acq : ResidueF i false [RegOp.acq i] true
  | acq_rel : ResidueF i false [RegOp.acq i, RegOp.rel i] false

/-- Registry well-formedness: entry ids (allocation addresses) are distinct and
below the allocator counter, and every live entry has a positive count. -/
def RegWF (reg : Registry) : Prop :=
  (reg.entries.map (fun e => e.id)).Nodup ∧ (∀ e ∈ reg.entries, 0 < e.kref) ∧
    ∀ e ∈ reg.entries, e.id < reg.nextId

/-! ### Helper lemmas -/

lemma getElem?_some_lt {α : Type} {l : List α} {n : Nat} {a : α} (h : l[n]? = some a) :
    n < l.length := by
  by_contra hc
  rw [List.getElem?_eq_none (by omega)] at h
  exact Option.noConfusion h

lemma fixup_guard2 {rdesc : List Nat} {b2 : Nat} (h2 : rdesc[2]? = some b2)
    (hb2 : ¬ b2 = 0x09) : cougar_report_fixup rdesc = some rdesc := by
  simp only [cougar_report_fixup, h2]
  rw [if_neg hb2]

lemma fixup_guard3 {rdesc : List Nat} {b3 : Nat} (h2 : rdesc[2]? = some 0x09)
    (h3 : rdesc[3]? = some b3) (hb3 : ¬ b3 = 0x02) :
    cougar_report_fixup rdesc = some rdesc := by
  simp only [cougar_report_fixup, h2, h3, if_true]
  rw [if_neg hb3]

lemma fixup_below {rdesc : List Nat} {lo hi : Nat} (h2 : rdesc[2]? = some 0x09)
    (h3 : rdesc[3]? = some 0x02) (h115 : rdesc[115]? = some lo)
    (h116 : rdesc[116]? = some hi) (hlt : lo ||| hi <<< 8 < HID_MAX_USAGES) :
    cougar_report_fixup rdesc = some rdesc := by
  simp only [cougar_report_fixup, h2, h3, h115, h116, if_true]
  rw [if_neg (not_le.mpr hlt)]

lemma fixup_clamp {rdesc : List Nat} {lo hi : Nat} (h2 : rdesc[2]? = some 0x09)
    (h3 : rdesc[3]? = some 0x02) (h115 : rdesc[115]? = some lo)
    (h116 : rdesc[116]? = some hi) (hge : HID_MAX_USAGES ≤ lo ||| hi <<< 8) :
    cougar_report_fixup rdesc =
      some ((rdesc.set 115 ((HID_MAX_USAGES - 1) &&& 0xff)).set 116
        ((HID_MAX_USAGES - 1) >>> 8)) := by
  simp only [cougar_report_fixup, h2, h3, h115, h116, if_true]
  rw [if_pos hge]

lemma fixup_oob2 {rdesc : List Nat} (h2 : rdesc[2]? = none) :
    cougar_report_fixup rdesc = none := by
  simp only [cougar_report_fixup, h2]

lemma fixup_oob3 {rdesc : List Nat} (h2 : rdesc[2]? = some 0x09)
    (h3 : rdesc[3]? = none) : cougar_report_fixup rdesc = none := by
  simp only [cougar_report_fixup, h2, h3, if_true]

lemma fixup_oob115 {rdesc : List Nat} (h2 : rdesc[2]? = some 0x09)
    (h3 : rdesc[3]? = some 0x02) (h115 : rdesc[115]? = none) :
    cougar_report_fixup rdesc = none := by
  cases h116 : rdesc[116]? with
  | none =>
    simp only [cougar_report_fixup, h2, h3, h115, h116, if_true]
  | some hi =>
    simp only [cougar_report_fixup, h2, h3, h115, h116, if_true]

lemma fixup_oob116 {rdesc : List Nat} {lo : Nat} (h2 : rdesc[2]? = some 0x09)
    (h3 : rdesc[3]? = some 0x02) (h115 : rdesc[115]? = some lo)
    (h116 : rdesc[116]? = none) : cougar_report_fixup rdesc = none := by
  simp only [cougar_report_fixup, h2, h3, h115, h116, if_true]

/-! ### Claim theorems -/

/-- Claim C4: release is idempotent.  Running `cougar_remove_shared_data` on the
state it just produced is a no-op: the binding's `shared` pointer was cleared by
the first call, so the guard `if (cougar->shared)` skips the second `kref_put`
and every registry entry (this one and all others) is left untouched. -/
theorem cougar_release_idempotent (ents : List CougarShared) (c : Cougar) :
    cougar_remove_shared_data (cougar_remove_shared_data ents c).1
        (cougar_remove_shared_data ents c).2 = cougar_remove_shared_data ents c := by
  cases h : c.shared with
  | none => simp [cougar_remove_shared_data, h]
  | some i => simp [cougar_remove_shared_data, h]

/-- Claim C7: the report-descriptor fixup is idempotent.  A descriptor of at
least 117 bytes whose little-endian usage-count field is already below
HID_MAX_USAGES is returned byte-identical, and applying the fixup to any of its
own successful outputs returns that output unchanged (the clamped value
HID_MAX_USAGES - 1 is below the trigger threshold). -/
theorem cougar_report_fixup_idem :
    (∀ (rdesc : List Nat) (u : Nat), 117 ≤ rdesc.length → usage_field rdesc = some u →
      u < HID_MAX_USAGES → cougar_report_fixup rdesc = some rdesc) ∧
    (∀ rdesc r : List Nat, cougar_report_fixup rdesc = some r →
      cougar_report_fixup r = some r) := by
  constructor
  · intro rdesc u hlen hu hlt
    obtain ⟨b2, h2⟩ : ∃ b2, rdesc[2]? = some b2 := by
      cases h : rdesc[2]? with
      | none => exact absurd (List.getElem?_eq_none_iff.mp h) (by omega)
      | some b2 => exact ⟨b2, rfl⟩
    obtain ⟨b3, h3⟩ : ∃ b3, rdesc[3]? = some b3 := by
      cases h : rdesc[3]? with
      | none => exact absurd (List.getElem?_eq_none_iff.mp h) (by omega)
      | some b3 => exact ⟨b3, rfl⟩
    obtain ⟨lo, h115⟩ : ∃ lo, rdesc[115]? = some lo := by
      cases h : rdesc[115]? with
      | none => exact absurd (List.getElem?_eq_none_iff.mp h) (by omega)
      | some lo => exact ⟨lo, rfl⟩
    obtain ⟨hi, h116⟩ : ∃ hi, rdesc[116]? = some hi := by
      cases h : rdesc[116]? with
      | none => exact absurd (List.getElem?_eq_none_iff.mp h) (by omega)
      | some hi => exact ⟨hi, rfl⟩
    have hu' : lo ||| hi <<< 8 = u := by
      unfold usage_field at hu
      rw [h115, h116] at hu
      exact Option.some.inj hu
    by_cases hb2 : b2 = 0x09
    · subst hb2
      by_cases hb3 : b3 = 0x02
      · subst hb3
        apply fixup_below h2 h3 h115 h116
        rw [hu']
        exact hlt
      · exact fixup_guard3 h2 h3 hb3
    · exact fixup_guard2 h2 hb2
  · intro rdesc r h
    cases h2 : rdesc[2]? with
    | none =>
      rw [fixup_oob2 h2] at h
      exact Option.noConfusion h
    | some b2 =>
      by_cases hb2 : b2 = 0x09
      · subst hb2
        cases h3 : rdesc[3]? with
        | none =>
          rw [fixup_oob3 h2 h3] at h
          exact Option.noConfusion h
        | some b3 =>
          by_cases hb3 : b3 = 0x02
          · subst hb3
            cases h115 : rdesc[115]? with
            | none =>
              rw [fixup_oob115 h2 h3 h115] at h
              exact Option.noConfusion h
            | some lo =>
              cases h116 : rdesc[116]? with
              | none =>
                rw [fixup_oob116 h2 h3 h115 h116] at h
                exact Option.noConfusion h
              | some hi =>
                by_cases htrig : HID_MAX_USAGES ≤ lo ||| hi <<< 8
                · rw [fixup_clamp h2 h3 h115 h116 htrig] at h
                  injection h with hX
                  subst hX
                  have h115lt : 115 < rdesc.length := getElem?_some_lt h115
                  have h116lt : 116 < rdesc.length := getElem?_some_lt h116
                  have hr2 : ((rdesc.set 115 ((HID_MAX_USAGES - 1) &&& 0xff)).set 116
                      ((HID_MAX_USAGES - 1) >>> 8))[2]? = some 0x09 := by
                    rw [List.getElem?_set_ne (by decide : (116 : Nat) ≠ 2),
                      List.getElem?_set_ne (by decide : (115 : Nat) ≠ 2)]
                    exact h2
                  have hr3 : ((rdesc.set 115 ((HID_MAX_USAGES - 1) &&& 0xff)).set 116
                      ((HID_MAX_USAGES - 1) >>> 8))[3]? = some 0x02 := by
                    rw [List.getElem?_set_ne (by decide : (116 : Nat) ≠ 3),
                      List.getElem?_set_ne (by decide : (115 : Nat) ≠ 3)]
                    exact h3
                  have hr115 : ((rdesc.set 115 ((HID_MAX_USAGES - 1) &&& 0xff)).set 116
                      ((HID_MAX_USAGES - 1) >>> 8))[115]? =
                      some ((HID_MAX_USAGES - 1) &&& 0xff) := by
                    rw [List.getElem?_set_ne (by decide : (116 : Nat) ≠ 115)]
                    exact List.getElem?_set_self (by omega)
                  have hr116 : ((rdesc.set 115 ((HID_MAX_USAGES - 1) &&& 0xff)).set 116
                      ((HID_MAX_USAGES - 1) >>> 8))[116]? =
                      some ((HID_MAX_USAGES - 1) >>> 8) :=
                    List.getElem?_set_self (by simpa using h116lt)
                  exact fixup_below hr2 hr3 hr115 hr116 (by decide)
                · rw [fixup_below h2 h3 h115 h116 (not_le.mp htrig)] at h
                  injection h with hX
                  subst hX
                  exact fixup_below h2 h3 h115 h116 (not_le.mp htrig)
          · rw [fixup_guard3 h2 h3 hb3] at h
            injection h with hX
            subst hX
            exact fixup_guard3 h2 h3 hb3
      · rw [fixup_guard2 h2 hb2] at h
        injection h with hX
        subst hX
        exact fixup_guard2 h2 hb2

/-- Claim C7 witness: a 117-byte all-zero descriptor is below the limit and is
left byte-identical; re-applying the fixup to that output is also the
identity. -/
theorem cougar_report_fixup_idem_witness :
    117 ≤ (List.replicate 117 0).length ∧
      usage_field (List.replicate 117 (0 : Nat)) = some 0 ∧ 0 < HID_MAX_USAGES ∧
      cougar_report_fixup (List.replicate 117 0) = some (List.replicate 117 0) ∧
      cougar_report_fixup (List.replicate 117 0) = some (List.replicate 117 0) :=
  ⟨by decide, by decide, by decide,
    cougar_report_fixup_idem.1 (List.replicate 117 0) 0 (by decide) (by decide) (by decide),
    cougar_report_fixup_idem.2 (List.replicate 117 0) (List.replicate 117 0)
      (cougar_report_fixup_idem.1 (List.replicate 117 0) 0 (by decide) (by decide) (by decide))⟩

/-- Claim C10 counterexample: the claim's "total iff the buffer holds at least
117 bytes" fails in the right-to-left-necessity direction, because the C guard
short-circuits.  The 3-byte buffer [0, 0, 0] fails the `rdesc[2] == 0x09` guard,
so offsets 3, 115, 116 are never read: the embedded fixup is total on it even
though it is far shorter than 117 bytes. -/
theorem cougar_report_fixup_short_total :
    cougar_report_fixup [0, 0, 0] = some [0, 0, 0] ∧ ¬ 117 ≤ ([0, 0, 0] : List Nat).length := by
  decide

/-- Claim C10 (amended): `cougar_report_fixup` consults no size; holding at
least 117 bytes is a sufficient precondition for being free of out-of-bounds
reads, and exactly (iff) the fixup is total when the buffer has more than 2
bytes, and — because the guards short-circuit — more than 3 bytes when byte 2
is 0x09, and more than 116 bytes when additionally byte 3 is 0x02. -/
theorem cougar_report_fixup_totality (rdesc : List Nat) :
    ((cougar_report_fixup rdesc).isSome = true ↔
      2 < rdesc.length ∧ (rdesc[2]? = some 0x09 →
        3 < rdesc.length ∧ (rdesc[3]? = some 0x02 → 116 < rdesc.length))) ∧
    (117 ≤ rdesc.length → (cougar_report_fixup rdesc).isSome = true) := by
  have main : (cougar_report_fixup rdesc).isSome = true ↔
      2 < rdesc.length ∧ (rdesc[2]? = some 0x09 →
        3 < rdesc.length ∧ (rdesc[3]? = some 0x02 → 116 < rdesc.length)) := by
    cases h2 : rdesc[2]? with
    | none =>
      have hlen := List.getElem?_eq_none_iff.mp h2
      refine iff_of_false (by simp [fixup_oob2 h2]) ?_
      rintro ⟨hlt, -⟩
      omega
    | some b2 =>
      have hl2 := getElem?_some_lt h2
      by_cases hb2 : b2 = 0x09
      · subst hb2
        cases h3 : rdesc[3]? with
        | none =>
          have hlen := List.getElem?_eq_none_iff.mp h3
          refine iff_of_false (by simp [fixup_oob3 h2 h3]) ?_
          rintro ⟨-, himp⟩
          exact absurd (himp rfl).1 (by omega)
        | some b3 =>
          have hl3 := getElem?_some_lt h3
          by_cases hb3 : b3 = 0x02
          · subst hb3
            cases h115 : rdesc[115]? with
            | none =>
              have hlen := List.getElem?_eq_none_iff.mp h115
              refine iff_of_false (by simp [fixup_oob115 h2 h3 h115]) ?_
              rintro ⟨-, himp⟩
              exact absurd ((himp rfl).2 rfl) (by omega)
            | some lo =>
              cases h116 : rdesc[116]? with
              | none =>
                have hlen := List.getElem?_eq_none_iff.mp h116
                refine iff_of_false (by simp [fixup_oob116 h2 h3 h115 h116]) ?_
                rintro ⟨-, himp⟩
                exact absurd ((himp rfl).2 rfl) (by omega)
              | some hi =>
                have hl116 := getElem?_some_lt h116
                refine iff_of_true ?_ ⟨by omega, fun _ => ⟨by omega, fun _ => by omega⟩⟩
                by_cases htrig : HID_MAX_USAGES ≤ lo ||| hi <<< 8
                · rw [fixup_clamp h2 h3 h115 h116 htrig]
                  rfl
                · rw [fixup_below h2 h3 h115 h116 (not_le.mp htrig)]
                  rfl
          · refine iff_of_true (by rw [fixup_guard3 h2 h3 hb3]; rfl) ?_
            refine ⟨by omega, fun _ => ⟨by omega, fun hc => ?_⟩⟩
            exact absurd (Option.some.inj hc) hb3
      · refine iff_of_true (by rw [fixup_guard2 h2 hb2]; rfl) ?_
        refine ⟨by omega, fun hc => ?_⟩
        exact absurd (Option.some.inj hc) hb2
  refine ⟨main, fun hlen => main.mpr ?_⟩
  exact ⟨by omega, fun _ => ⟨by omega, fun _ => by omega⟩⟩

/-- Claim C10 witness: at a 117-byte buffer the sufficiency direction applies
and the fixup is total. -/
theorem cougar_report_fixup_totality_witness :
    117 ≤ (List.replicate 117 (0 : Nat)).length ∧
      (cougar_report_fixup (List.replicate 117 0)).isSome = true :=
  ⟨by decide, (cougar_report_fixup_totality (List.replicate 117 0)).2 (by decide)⟩

/-- Claim C5: enable gating.  `cougar_raw_event` is a no-op returning success
for every payload when the binding is not the vendor interface, or has no
shared entry, or the entry's input sink is absent, or the entry is not enabled
(in particular before the keyboard sibling registered the sink and after
`cougar_remove` cleared `enabled`): no key event is emitted, nothing queued. -/
theorem cougar_raw_event_gating (ents : List CougarShared) (table : List (Nat × Nat))
    (c : Cougar) (data : List Nat)
    (h : c.special_intf = false ∨ c.shared = none ∨
      ∃ sid sh, c.shared = some sid ∧ findShared ents sid = some sh ∧
        (sh.input = none ∨ sh.enabled = false)) :
    cougar_raw_event ents table c data = some ⟨[], 0, 0, false⟩ := by
  rcases h with h | h | ⟨sid, sh, hsid, hfind, hc⟩
  · simp [cougar_raw_event, h]
  · by_cases hspec : c.special_intf = false
    · simp [cougar_raw_event, hspec]
    · simp [cougar_raw_event, hspec, h]
  · by_cases hspec : c.special_intf = false
    · simp [cougar_raw_event, hspec]
    · rcases hc with hc | hc
      · simp [cougar_raw_event, hspec, hsid, hfind, hc]
      · cases hin : sh.input with
        | none => simp [cougar_raw_event, hspec, hsid, hfind, hin]
        | some inp => simp [cougar_raw_event, hspec, hsid, hfind, hin, hc]

/-- Claim C5 witness: a non-vendor binding, and a vendor binding whose entry is
not yet enabled, both drop an arbitrary payload and return 0. -/
theorem cougar_raw_event_gating_witness :
    cougar_raw_event [] cougar_mapping ⟨false, none⟩ [0, 0x78, 1] = some ⟨[], 0, 0, false⟩ ∧
    cougar_raw_event [⟨0, 1, false, ['a'], some 5⟩] cougar_mapping ⟨true, some 0⟩
      [0, 0x78, 1] = some ⟨[], 0, 0, false⟩ :=
  ⟨cougar_raw_event_gating _ _ _ _ (Or.inl rfl),
   cougar_raw_event_gating _ _ _ _ (Or.inr (Or.inr ⟨0, _, rfl, rfl, Or.inr rfl⟩))⟩

/-- Claim C6: mapping lookup determinism.  On an enabled vendor binding with a
recorded sink, a payload whose code byte (offset 1) is 0x78 makes
`cougar_raw_event` emit exactly one key event whose target is KEY_SPACE when
`g6_is_space` is set and KEY_F18 otherwise, with the value taken verbatim from
the payload's action byte (offset 2), followed by exactly one `input_sync`,
returning 0. -/
theorem cougar_raw_event_g6 (b : Bool) (ents : List CougarShared) (c : Cougar)
    (sid : Nat) (sh : CougarShared) (inp : Nat) (data : List Nat) (act : Nat)
    (hsp : c.special_intf = true) (hsh : c.shared = some sid)
    (hfind : findShared ents sid = some sh) (hinp : sh.input = some inp)
    (hen : sh.enabled = true)
    (hcode : data[COUGAR_FIELD_CODE]? = some COUGAR_KEY_G6)
    (hact : data[COUGAR_FIELD_ACTION]? = some act) :
    cougar_raw_event ents (cougar_fix_g6_mapping b cougar_mapping).1 c data =
      some ⟨[(inp, EV_KEY, if b then KEY_SPACE else KEY_F18, act)], 1, 0, false⟩ := by
  have htbl : cougar_lookup (cougar_fix_g6_mapping b cougar_mapping).1 COUGAR_KEY_G6 =
      some (if b then KEY_SPACE else KEY_F18) := by
    cases b <;> decide
  simp [cougar_raw_event, hsp, hsh, hfind, hinp, hen, hcode, hact, htbl]

/-- Claim C6 witness: with `g6_is_space` set, code 0x78 with action byte 1 on a
live vendor binding emits the single event (sink 5, EV_KEY, KEY_SPACE, 1) and
one sync. -/
theorem cougar_raw_event_g6_witness :
    (⟨true, some 0⟩ : Cougar).special_intf = true ∧
    (⟨true, some 0⟩ : Cougar).shared = some 0 ∧
    findShared [⟨0, 2, true, ['a'], some 5⟩] 0 = some ⟨0, 2, true, ['a'], some 5⟩ ∧
    (⟨0, 2, true, ['a'], some 5⟩ : CougarShared).input = some 5 ∧
    (⟨0, 2, true, ['a'], some 5⟩ : CougarShared).enabled = true ∧
    ([0, 0x78, 1] : List Nat)[COUGAR_FIELD_CODE]? = some COUGAR_KEY_G6 ∧
    ([0, 0x78, 1] : List Nat)[COUGAR_FIELD_ACTION]? = some 1 ∧
    cougar_raw_event [⟨0, 2, true, ['a'], some 5⟩] (cougar_fix_g6_mapping true cougar_mapping).1
      ⟨true, some 0⟩ [0, 0x78, 1] =
      some ⟨[(5, EV_KEY, if true then KEY_SPACE else KEY_F18, 1)], 1, 0, false⟩ :=
  ⟨rfl, rfl, by decide, rfl, rfl, by decide, by decide,
    cougar_raw_event_g6 true _ _ 0 _ 5 _ 1 rfl rfl rfl rfl rfl (by decide) (by decide)⟩

/-- Claim C8 counterexample: the claim says the code/action reads are bounds
checked so a payload shorter than 3 bytes fails safely.  They are not: on an
enabled vendor binding an empty payload makes `cougar_raw_event` read
`data[1]` out of bounds — the embedding returns `none` (undefined behaviour),
not the safe no-op `some` result the claim requires. -/
theorem cougar_raw_event_oob :
    cougar_raw_event [⟨0, 1, true, ['a'], some 5⟩] cougar_mapping ⟨true, some 0⟩ [] = none := by
  decide

/-- Claim C8 (amended): `cougar_raw_event` reads the code and action fields at
fixed offsets 1 and 2 with NO bounds check (the `size` argument is ignored).
On an enabled vendor binding a payload shorter than 3 bytes is read out of
bounds (embedded result `none`); a payload of at least 3 bytes is always read
in bounds and the function returns successfully (unmapped codes included). -/
theorem cougar_raw_event_bounds (ents : List CougarShared) (table : List (Nat × Nat))
    (c : Cougar) (sid : Nat) (sh : CougarShared) (inp : Nat) (data : List Nat)
    (hsp : c.special_intf = true) (hsh : c.shared = some sid)
    (hfind : findShared ents sid = some sh) (hinp : sh.input = some inp)
    (hen : sh.enabled = true) :
    (data.length < 3 → cougar_raw_event ents table c data = none) ∧
    (3 ≤ data.length → (cougar_raw_event ents table c data).isSome = true) := by
  constructor
  · intro hlen
    have h2 : data[COUGAR_FIELD_ACTION]? = none :=
      List.getElem?_eq_none (by simp only [COUGAR_FIELD_ACTION]; omega)
    cases h1 : data[COUGAR_FIELD_CODE]? with
    | none => simp [cougar_raw_event, hsp, hsh, hfind, hinp, hen, h1, h2]
    | some code => simp [cougar_raw_event, hsp, hsh, hfind, hinp, hen, h1, h2]
  · intro hlen
    obtain ⟨code, h1⟩ : ∃ code, data[COUGAR_FIELD_CODE]? = some code := by
      cases h : data[COUGAR_FIELD_CODE]? with
      | none =>
        have := List.getElem?_eq_none_iff.mp h
        simp only [COUGAR_FIELD_CODE] at this
        exact absurd this (by omega)
      | some code => exact ⟨code, rfl⟩
    obtain ⟨act, h2⟩ : ∃ act, data[COUGAR_FIELD_ACTION]? = some act := by
      cases h : data[COUGAR_FIELD_ACTION]? with
      | none =>
        have := List.getElem?_eq_none_iff.mp h
        simp only [COUGAR_FIELD_ACTION] at this
        exact absurd this (by omega)
      | some act => exact ⟨act, rfl⟩
    cases hlk : cougar_lookup table code with
    | none => simp [cougar_raw_event, hsp, hsh, hfind, hinp, hen, h1, h2, hlk]
    | some key => simp [cougar_raw_event, hsp, hsh, hfind, hinp, hen, h1, h2, hlk]

/-- Claim C8 (amended) witness: on a live vendor binding, a 2-byte payload is
read out of bounds while a 3-byte payload is processed successfully. -/
theorem cougar_raw_event_bounds_witness :
    cougar_raw_event [⟨0, 1, true, ['a'], some 5⟩] cougar_mapping ⟨true, some 0⟩ [0, 0x78] =
      none ∧
    (cougar_raw_event [⟨0, 1, true, ['a'], some 5⟩] cougar_mapping ⟨true, some 0⟩
      [0, 0x78, 1]).isSome = true :=
  ⟨(cougar_raw_event_bounds [⟨0, 1, true, ['a'], some 5⟩] cougar_mapping ⟨true, some 0⟩
      0 ⟨0, 1, true, ['a'], some 5⟩ 5 [0, 0x78] rfl rfl rfl rfl rfl).1 (by decide),
   (cougar_raw_event_bounds [⟨0, 1, true, ['a'], some 5⟩] cougar_mapping ⟨true, some 0⟩
      0 ⟨0, 1, true, ['a'], some 5⟩ 5 [0, 0x78, 1] rfl rfl rfl rfl rfl).2 (by decide)⟩

lemma bind_ok_error (reg : Registry) (c : Cougar) (p : List Char) :
    (cougar_bind_shared_data reg c p false 0).error = 0 := by
  simp only [cougar_bind_shared_data]
  cases hg : (cougar_get_shared_data reg.entries p).2 with
  | none => rfl
  | some i => rfl

/-- Claim C9 counterexample: the claim places the configuration of the G6
entry at module initialization, before any device attach.  It happens at
keyboard-interface probe instead: right after module init the table still
holds its static initializer, so with `g6_is_space = 0` the G6 entry maps to
KEY_SPACE, not the configured KEY_F18. -/
theorem cougar_g6_init_counterexample :
    cougar_module_init_table false = cougar_mapping ∧
    cougar_lookup (cougar_module_init_table false) COUGAR_KEY_G6 = some KEY_SPACE ∧
    ¬ KEY_SPACE = KEY_F18 := by
  decide

/-- Claim C9 (amended): the configurable G6 entry is set by
`cougar_fix_g6_mapping` during `cougar_probe` of the keyboard interface (the
same probe that later enables the entry, and translation requires `enabled`),
not at module initialization; for both configuration values the probed table
maps 0x78 to the selected alternative, and if the G6 entry is absent the
function warns and returns the table unchanged without failing the probe. -/
theorem cougar_g6_config_at_probe (b : Bool) :
    (∀ (reg : Registry) (table : List (Nat × Nat)) (hdev : Hdev),
      hdev.usage = HID_GD_KEYBOARD →
      (cougar_probe reg table hdev b false 0 0 false 0 0).table =
        (cougar_fix_g6_mapping b table).1 ∧
      (cougar_probe reg table hdev b false 0 0 false 0 0).ret = 0) ∧
    cougar_lookup (cougar_fix_g6_mapping b cougar_mapping).1 COUGAR_KEY_G6 =
      some (if b then KEY_SPACE else KEY_F18) ∧
    (cougar_fix_g6_mapping b cougar_mapping).2 = false ∧
    (∀ table : List (Nat × Nat), cougar_lookup table COUGAR_KEY_G6 = none →
      cougar_fix_g6_mapping b table = (table, true)) := by
  refine ⟨?_, ?_, ?_, ?_⟩
  · intro reg table hdev hu
    obtain ⟨phys, usage, inputs⟩ := hdev
    dsimp only at hu
    subst hu
    have herr := bind_ok_error reg ⟨false, none⟩ phys
    cases hfi : find_registered_input inputs with
    | none =>
      cases hcs : (cougar_bind_shared_data reg ⟨false, none⟩ phys false 0).cougar.shared with
      | none =>
        constructor <;>
          simp [cougar_probe, herr, hfi, hcs, HID_GD_KEYBOARD, COUGAR_VENDOR_USAGE]
      | some sid =>
        constructor <;>
          simp [cougar_probe, herr, hfi, hcs, HID_GD_KEYBOARD, COUGAR_VENDOR_USAGE]
    | some inp =>
      cases hcs : (cougar_bind_shared_data reg ⟨false, none⟩ phys false 0).cougar.shared with
      | none =>
        constructor <;>
          simp [cougar_probe, herr, hfi, hcs, HID_GD_KEYBOARD, COUGAR_VENDOR_USAGE]
      | some sid =>
        constructor <;>
          simp [cougar_probe, herr, hfi, hcs, HID_GD_KEYBOARD, COUGAR_VENDOR_USAGE]
  · cases b <;> decide
  · cases b <;> decide
  · intro table h
    induction table with
    | nil => rfl
    | cons hd rest ih =>
      obtain ⟨hc, hk⟩ := hd
      by_cases h0 : hc = 0
      · subst h0
        rfl
      · have hne : ¬ COUGAR_KEY_G6 = hc := by
          intro hcontr
          rw [show cougar_lookup ((hc, hk) :: rest) COUGAR_KEY_G6 = some hk by
            simp only [cougar_lookup]
            rw [if_neg h0, if_pos hcontr]] at h
          exact Option.noConfusion h
        have hrest : cougar_lookup rest COUGAR_KEY_G6 = none := by
          rw [show cougar_lookup ((hc, hk) :: rest) COUGAR_KEY_G6 =
              cougar_lookup rest COUGAR_KEY_G6 by
            simp only [cougar_lookup]
            rw [if_neg h0, if_neg hne]] at h
          exact h
        have hfix := ih hrest
        simp only [cougar_fix_g6_mapping]
        rw [if_neg h0, if_neg (fun hcc => hne hcc.symm), hfix]

/-- Claim C9 (amended) witness: a keyboard probe on an empty registry applies
the configuration, and the empty table (no G6 entry) is returned unchanged
with the warning flag. -/
theorem cougar_g6_config_at_probe_witness :
    (⟨['a', '/', 'b'], HID_GD_KEYBOARD, []⟩ : Hdev).usage = HID_GD_KEYBOARD ∧
    (cougar_probe ⟨[], 0⟩ cougar_mapping ⟨['a', '/', 'b'], HID_GD_KEYBOARD, []⟩ false
      false 0 0 false 0 0).table = (cougar_fix_g6_mapping false cougar_mapping).1 ∧
    cougar_lookup [] COUGAR_KEY_G6 = none ∧
    cougar_fix_g6_mapping false [] = ([], true) :=
  ⟨rfl, ((cougar_g6_config_at_probe false).1 ⟨[], 0⟩ cougar_mapping _ rfl).1,
    rfl, (cougar_g6_config_at_probe false).2.2.2 [] rfl⟩

/-! ### Path comparison and registry lemmas -/

lemma compare_of_prefix {a b : List Char} {n : Nat}
    (ha : strrchr_pos '/' a = some n) (hb : strrchr_pos '/' b = some n)
    (hn : 0 < n) (hpre : a.take n = b.take n) :
    compare_device_paths b a '/' = true := by
  simp only [compare_device_paths, hb, ha]
  rw [if_neg (by omega)]
  simp [hpre]

lemma compare_degenerate {a b : List Char}
    (h : strrchr_pos '/' a = none ∨ strrchr_pos '/' a = some 0 ∨
         strrchr_pos '/' b = none ∨ strrchr_pos '/' b = some 0) :
    compare_device_paths b a '/' = false := by
  rcases h with h | h | h | h
  · cases hb : strrchr_pos '/' b with
    | none => simp only [compare_device_paths, hb, h]
    | some n1 => simp only [compare_device_paths, hb, h]
  · cases hb : strrchr_pos '/' b with
    | none => simp only [compare_device_paths, hb, h]
    | some n1 =>
      simp only [compare_device_paths, hb, h]
      rw [if_pos (by omega)]
  · cases ha : strrchr_pos '/' a with
    | none => simp only [compare_device_paths, h, ha]
    | some n2 => simp only [compare_device_paths, h, ha]
  · cases ha : strrchr_pos '/' a with
    | none => simp only [compare_device_paths, h, ha]
    | some n2 =>
      simp only [compare_device_paths, h, ha]
      rw [if_pos (by omega)]

lemma bind_create (reg : Registry) (c : Cougar) (p : List Char)
    (hnone : (cougar_get_shared_data reg.entries p).2 = none) :
    cougar_bind_shared_data reg c p false 0 =
      ⟨⟨(cougar_get_shared_data reg.entries p).1 ++
          [⟨reg.nextId, 1, false, p, none⟩], reg.nextId + 1⟩,
        { c with shared := some reg.nextId }, 0, true⟩ := by
  simp only [cougar_bind_shared_data, hnone]
  rfl

lemma bind_found (reg : Registry) (c : Cougar) (p : List Char) (i : Nat)
    (hsome : (cougar_get_shared_data reg.entries p).2 = some i) :
    cougar_bind_shared_data reg c p false 0 =
      ⟨⟨(cougar_get_shared_data reg.entries p).1, reg.nextId⟩,
        { c with shared := some i }, 0, true⟩ := by
  simp only [cougar_bind_shared_data, hsome]
  rfl

lemma get_single_match (e : CougarShared) (p : List Char)
    (h : compare_device_paths p e.devPhys '/' = true) :
    cougar_get_shared_data [e] p = ([{ e with kref := e.kref + 1 }], some e.id) := by
  unfold cougar_get_shared_data
  rw [if_pos h]

lemma get_single_nomatch (e : CougarShared) (p : List Char)
    (h : compare_device_paths p e.devPhys '/' = false) :
    cougar_get_shared_data [e] p = ([e], none) := by
  unfold cougar_get_shared_data
  rw [if_neg (fun hc => by rw [h] at hc; exact Bool.noConfusion hc)]
  rfl

lemma get_none_eq (l : List CougarShared) (p : List Char)
    (h : (cougar_get_shared_data l p).2 = none) :
    (cougar_get_shared_data l p).1 = l := by
  induction l with
  | nil => rfl
  | cons s rest ih =>
    by_cases hc : compare_device_paths p s.devPhys '/' = true
    · unfold cougar_get_shared_data at h
      rw [if_pos hc] at h
      exact Option.noConfusion h
    · unfold cougar_get_shared_data at h ⊢
      rw [if_neg hc] at h ⊢
      dsimp only at h ⊢
      rw [ih h]

lemma get_some_mem (l : List CougarShared) (p : List Char) (i : Nat)
    (h : (cougar_get_shared_data l p).2 = some i) :
    i ∈ l.map (fun e => e.id) := by
  induction l with
  | nil => exact Option.noConfusion h
  | cons s rest ih =>
    by_cases hc : compare_device_paths p s.devPhys '/' = true
    · unfold cougar_get_shared_data at h
      rw [if_pos hc] at h
      dsimp only at h
      simp [← Option.some.inj h]
    · unfold cougar_get_shared_data at h
      rw [if_neg hc] at h
      dsimp only at h
      simp [ih h]

lemma put_get_roundtrip (l : List CougarShared) (p : List Char) (i : Nat)
    (hnd : (l.map (fun e => e.id)).Nodup) (hpos : ∀ e ∈ l, 0 < e.kref)
    (h : (cougar_get_shared_data l p).2 = some i) :
    kref_put_shared (cougar_get_shared_data l p).1 i = l := by
  induction l with
  | nil => exact Option.noConfusion h
  | cons s rest ih =>
    by_cases hc : compare_device_paths p s.devPhys '/' = true
    · unfold cougar_get_shared_data at h ⊢
      rw [if_pos hc] at h ⊢
      dsimp only at h ⊢
      have hi : s.id = i := Option.some.inj h
      have hk := hpos s (by simp)
      unfold kref_put_shared
      rw [if_pos hi, if_neg (show ¬ s.kref + 1 = 1 by omega)]
      rfl
    · unfold cougar_get_shared_data at h ⊢
      rw [if_neg hc] at h ⊢
      dsimp only at h ⊢
      have hmem : i ∈ rest.map (fun e => e.id) := get_some_mem rest p i h
      have hnd' : (∀ x ∈ rest, ¬ x.id = s.id) ∧ (List.map (fun e => e.id) rest).Nodup := by
        simpa using hnd
      have hsne : ¬ s.id = i := by
        intro hcontr
        obtain ⟨x, hx, hxid⟩ := List.mem_map.mp hmem
        exact hnd'.1 x hx (hxid.trans hcontr.symm)
      unfold kref_put_shared
      rw [if_neg hsne]
      rw [ih hnd'.2 (fun e he => hpos e (List.mem_cons_of_mem _ he)) h]

lemma put_append_fresh (l : List CougarShared) (e : CougarShared) (i : Nat)
    (hne : ∀ x ∈ l, ¬ x.id = i) (hid : e.id = i) (hk : e.kref = 1) :
    kref_put_shared (l ++ [e]) i = l := by
  induction l with
  | nil =>
    simp only [List.nil_append]
    unfold kref_put_shared
    rw [if_pos hid, if_pos hk]
  | cons x rest ih =>
    simp only [List.cons_append]
    unfold kref_put_shared
    rw [if_neg (hne x (by simp))]
    rw [ih (fun y hy => hne y (List.mem_cons_of_mem _ hy))]

lemma bind_then_remove (reg : Registry) (c : Cougar) (p : List Char) (hwf : RegWF reg) :
    (cougar_remove_shared_data (cougar_bind_shared_data reg c p false 0).reg.entries
      (cougar_bind_shared_data reg c p false 0).cougar).1 = reg.entries := by
  cases hg : (cougar_get_shared_data reg.entries p).2 with
  | none =>
    rw [bind_create reg c p hg]
    dsimp only [cougar_remove_shared_data]
    rw [get_none_eq _ _ hg]
    refine put_append_fresh reg.entries _ reg.nextId ?_ rfl rfl
    intro x hx hcontr
    exact absurd (hcontr ▸ hwf.2.2 x hx) (lt_irrefl _)
  | some i =>
    rw [bind_found reg c p i hg]
    dsimp only [cougar_remove_shared_data]
    exact put_get_roundtrip reg.entries p i hwf.1 hwf.2.1 hg

/-- Claim C3: attach rollback.  If a vendor-interface probe fails at
`hid_hw_open` after a successful `cougar_bind_shared_data`, then once the
probe (including the devres unwind that runs `cougar_remove_shared_data`)
completes, the registry is exactly what it was before the attach: the matched
entry's referenceCount is back to its pre-attach value (a created entry is
gone), and the open error is propagated. -/
theorem cougar_attach_rollback (reg : Registry) (table : List (Nat × Nat)) (hdev : Hdev)
    (g6 : Bool) (openRes : Int) (hwf : RegWF reg)
    (hu : hdev.usage = COUGAR_VENDOR_USAGE) (ho : ¬ openRes = 0) :
    (cougar_probe reg table hdev g6 false 0 0 false 0 openRes).reg.entries = reg.entries ∧
    (cougar_probe reg table hdev g6 false 0 0 false 0 openRes).ret = openRes := by
  obtain ⟨phys, usage, inputs⟩ := hdev
  dsimp only at hu
  subst hu
  have herr := bind_ok_error reg ⟨true, none⟩ phys
  have hroll := bind_then_remove reg ⟨true, none⟩ phys hwf
  constructor
  · simp [cougar_probe, herr, ho, HID_GD_KEYBOARD, COUGAR_VENDOR_USAGE, hroll]
  · simp [cougar_probe, herr, ho, HID_GD_KEYBOARD, COUGAR_VENDOR_USAGE]

/-- Claim C3 witness: a vendor probe whose exclusive open fails with -EIO on a
registry holding one entry with count 1 leaves that registry unchanged and
returns -EIO. -/
theorem cougar_attach_rollback_witness :
    RegWF ⟨[⟨0, 1, false, ['a', '/', 'b'], none⟩], 1⟩ ∧
    (⟨['a', '/', 'c'], COUGAR_VENDOR_USAGE, []⟩ : Hdev).usage = COUGAR_VENDOR_USAGE ∧
    (cougar_probe ⟨[⟨0, 1, false, ['a', '/', 'b'], none⟩], 1⟩ cougar_mapping
      ⟨['a', '/', 'c'], COUGAR_VENDOR_USAGE, []⟩ true false 0 0 false 0 (-5)).reg.entries =
      [⟨0, 1, false, ['a', '/', 'b'], none⟩] ∧
    (cougar_probe ⟨[⟨0, 1, false, ['a', '/', 'b'], none⟩], 1⟩ cougar_mapping
      ⟨['a', '/', 'c'], COUGAR_VENDOR_USAGE, []⟩ true false 0 0 false 0 (-5)).ret = -5 :=
  ⟨⟨by decide, by decide, by decide⟩, rfl,
    (cougar_attach_rollback ⟨[⟨0, 1, false, ['a', '/', 'b'], none⟩], 1⟩ cougar_mapping
      ⟨['a', '/', 'c'], COUGAR_VENDOR_USAGE, []⟩ true (-5)
      ⟨by decide, by decide, by decide⟩ rfl (by decide)).1,
    (cougar_attach_rollback ⟨[⟨0, 1, false, ['a', '/', 'b'], none⟩], 1⟩ cougar_mapping
      ⟨['a', '/', 'c'], COUGAR_VENDOR_USAGE, []⟩ true (-5)
      ⟨by decide, by decide, by decide⟩ rfl (by decide)).2⟩

/-- Claim C1: identity grouping.  Binding two interfaces whose paths have
non-empty, equal-length, byte-equal prefixes before the last '/' yields
handles to one and the same registry entry whose referenceCount is 2; if the
separator is absent or at position 0 in either path, the paths never match and
the second bind creates a fresh entry instead (both entries at count 1). -/
theorem cougar_identity_grouping :
    (∀ (a b : List Char) (n : Nat),
      strrchr_pos '/' a = some n → strrchr_pos '/' b = some n → 0 < n →
      a.take n = b.take n →
      (cougar_bind_shared_data
          (cougar_bind_shared_data ⟨[], 0⟩ ⟨false, none⟩ a false 0).reg
          ⟨true, none⟩ b false 0).reg.entries = [⟨0, 2, false, a, none⟩] ∧
      (cougar_bind_shared_data ⟨[], 0⟩ ⟨false, none⟩ a false 0).cougar.shared = some 0 ∧
      (cougar_bind_shared_data
          (cougar_bind_shared_data ⟨[], 0⟩ ⟨false, none⟩ a false 0).reg
          ⟨true, none⟩ b false 0).cougar.shared = some 0) ∧
    (∀ a b : List Char,
      (strrchr_pos '/' a = none ∨ strrchr_pos '/' a = some 0 ∨
       strrchr_pos '/' b = none ∨ strrchr_pos '/' b = some 0) →
      (cougar_bind_shared_data
          (cougar_bind_shared_data ⟨[], 0⟩ ⟨false, none⟩ a false 0).reg
          ⟨true, none⟩ b false 0).reg.entries =
        [⟨0, 1, false, a, none⟩, ⟨1, 1, false, b, none⟩] ∧
      (cougar_bind_shared_data ⟨[], 0⟩ ⟨false, none⟩ a false 0).cougar.shared = some 0 ∧
      (cougar_bind_shared_data
          (cougar_bind_shared_data ⟨[], 0⟩ ⟨false, none⟩ a false 0).reg
          ⟨true, none⟩ b false 0).cougar.shared = some 1) := by
  constructor
  · intro a b n ha hb hn hpre
    have hcmp : compare_device_paths b a '/' = true := compare_of_prefix ha hb hn hpre
    have hget : cougar_get_shared_data [⟨0, 1, false, a, none⟩] b =
        ([⟨0, 2, false, a, none⟩], some 0) :=
      get_single_match ⟨0, 1, false, a, none⟩ b hcmp
    have h2 : cougar_bind_shared_data ⟨[⟨0, 1, false, a, none⟩], 1⟩ ⟨true, none⟩ b false 0 =
        ⟨⟨[⟨0, 2, false, a, none⟩], 1⟩, ⟨true, some 0⟩, 0, true⟩ := by
      rw [bind_found ⟨[⟨0, 1, false, a, none⟩], 1⟩ ⟨true, none⟩ b 0 (by rw [hget]), hget]
    refine ⟨?_, rfl, ?_⟩
    · show (cougar_bind_shared_data ⟨[⟨0, 1, false, a, none⟩], 1⟩
        ⟨true, none⟩ b false 0).reg.entries = _
      rw [h2]
    · show (cougar_bind_shared_data ⟨[⟨0, 1, false, a, none⟩], 1⟩
        ⟨true, none⟩ b false 0).cougar.shared = _
      rw [h2]
  · intro a b h
    have hcmp : compare_device_paths b a '/' = false := compare_degenerate h
    have hget : cougar_get_shared_data [⟨0, 1, false, a, none⟩] b =
        ([⟨0, 1, false, a, none⟩], none) :=
      get_single_nomatch ⟨0, 1, false, a, none⟩ b hcmp
    have h2 : cougar_bind_shared_data ⟨[⟨0, 1, false, a, none⟩], 1⟩ ⟨true, none⟩ b false 0 =
        ⟨⟨[⟨0, 1, false, a, none⟩, ⟨1, 1, false, b, none⟩], 2⟩, ⟨true, some 1⟩, 0, true⟩ := by
      rw [bind_create ⟨[⟨0, 1, false, a, none⟩], 1⟩ ⟨true, none⟩ b (by rw [hget]), hget]
      rfl
    refine ⟨?_, rfl, ?_⟩
    · show (cougar_bind_shared_data ⟨[⟨0, 1, false, a, none⟩], 1⟩
        ⟨true, none⟩ b false 0).reg.entries = _
      rw [h2]
    · show (cougar_bind_shared_data ⟨[⟨0, 1, false, a, none⟩], 1⟩
        ⟨true, none⟩ b false 0).cougar.shared = _
      rw [h2]

/-- Claim C1 witness: the sibling paths "u/x" and "u/y" (last '/' at position
1, prefix "u") group into one entry with count 2; the degenerate paths "u"
(no separator) and "/y" (separator at 0) each get their own entry. -/
theorem cougar_identity_grouping_witness :
    (strrchr_pos '/' ['u', '/', 'x'] = some 1 ∧ strrchr_pos '/' ['u', '/', 'y'] = some 1 ∧
      0 < 1 ∧ (['u', '/', 'x'] : List Char).take 1 = (['u', '/', 'y'] : List Char).take 1 ∧
      (cougar_bind_shared_data
          (cougar_bind_shared_data ⟨[], 0⟩ ⟨false, none⟩ ['u', '/', 'x'] false 0).reg
          ⟨true, none⟩ ['u', '/', 'y'] false 0).reg.entries =
        [⟨0, 2, false, ['u', '/', 'x'], none⟩]) ∧
    ((strrchr_pos '/' ['u'] = none ∨ strrchr_pos '/' ['u'] = some 0 ∨
        strrchr_pos '/' ['/', 'y'] = none ∨ strrchr_pos '/' ['/', 'y'] = some 0) ∧
      (cougar_bind_shared_data
          (cougar_bind_shared_data ⟨[], 0⟩ ⟨false, none⟩ ['u'] false 0).reg
          ⟨true, none⟩ ['/', 'y'] false 0).reg.entries =
        [⟨0, 1, false, ['u'], none⟩, ⟨1, 1, false, ['/', 'y'], none⟩]) :=
  ⟨⟨by decide, by decide, by decide, by decide,
    (cougar_identity_grouping.1 ['u', '/', 'x'] ['u', '/', 'y'] 1 (by decide) (by decide)
      (by decide) (by decide)).1⟩,
   ⟨by decide,
    (cougar_identity_grouping.2 ['u'] ['/', 'y'] (by decide)).1⟩⟩

/-! ### Reference-counting lifecycle lemmas -/

lemma regRun_cons (paths : Nat → List Char) (st : SimState) (op : RegOp)
    (rest : List RegOp) :
    regRun paths st (op :: rest) = regRun paths (regStep paths st op) rest := rfl

lemma regStep_acq (paths : Nat → List Char) (st : SimState) (i : Nat) :
    regStep paths st (RegOp.acq i) =
      { reg := (cougar_bind_shared_data st.reg (st.binds i) (paths i) false 0).reg,
        binds := Function.update st.binds i
          (cougar_bind_shared_data st.reg (st.binds i) (paths i) false 0).cougar } := rfl

lemma regStep_rel (paths : Nat → List Char) (st : SimState) (i : Nat) :
    regStep paths st (RegOp.rel i) =
      { reg :=
          { entries := (cougar_remove_shared_data st.reg.entries (st.binds i)).1,
            nextId := st.reg.nextId },
        binds := Function.update st.binds i
          (cougar_remove_shared_data st.reg.entries (st.binds i)).2 } := rfl

lemma sameDev_compare {K p q : List Char} (hp : SameDev K p) (hq : SameDev K q) :
    compare_device_paths p q '/' = true :=
  compare_of_prefix hq.1 hp.1 hq.2.1 (hq.2.2.trans hp.2.2.symm)

lemma residue_nil_inv {i : Nat} {b : Bool} {f : Bool} (h : ResidueF i b [] f) : f = b := by
  cases h
  rfl

lemma residue_acq_inv {i : Nat} {b : Bool} {l : List RegOp} {f : Bool}
    (h : ResidueF i b (RegOp.acq i :: l) f) :
    b = false ∧ ((l = [] ∧ f = true) ∨ (l = [RegOp.rel i] ∧ f = false)) := by
  cases h with
  | one_acq => exact ⟨rfl, Or.inl ⟨rfl, rfl⟩⟩
  | acq_rel => exact ⟨rfl, Or.inr ⟨rfl, rfl⟩⟩

lemma residue_rel_inv {i : Nat} {b : Bool} {l : List RegOp} {f : Bool}
    (h : ResidueF i b (RegOp.rel i :: l) f) :
    b = true ∧ l = [] ∧ f = false := by
  cases h with
  | one_rel => exact ⟨rfl, rfl, rfl⟩

lemma heldCount_update (N : Nat) (binds : Nat → Cougar) (i : Nat) (c : Cougar)
    (hi : i < N) :
    heldCount N (Function.update binds i c) =
      heldBit c + ∑ j ∈ Finset.range N \ {i}, heldBit (binds j) := by
  have hfun : (fun j => heldBit (Function.update binds i c j)) =
      Function.update (fun j => heldBit (binds j)) i (heldBit c) := by
    funext j
    by_cases hj : j = i
    · subst hj
      simp [Function.update]
    · simp [Function.update, hj]
  unfold heldCount
  rw [hfun]
  exact Finset.sum_update_of_mem (Finset.mem_range.mpr hi) _ _

lemma heldCount_split (N : Nat) (binds : Nat → Cougar) (i : Nat) (hi : i < N) :
    heldCount N binds =
      heldBit (binds i) + ∑ j ∈ Finset.range N \ {i}, heldBit (binds j) := by
  unfold heldCount
  rw [Finset.sum_eq_sum_diff_singleton_add (Finset.mem_range.mpr hi)]
  exact Nat.add_comm _ _

lemma all_none_of_heldCount_zero {N : Nat} {binds : Nat → Cougar}
    (h : heldCount N binds = 0) : ∀ j, j < N → (binds j).shared = none := by
  intro j hj
  have h' : ∑ j ∈ Finset.range N, heldBit (binds j) = 0 := h
  have hz := Finset.sum_eq_zero_iff.mp h' j (Finset.mem_range.mpr hj)
  cases hsh : (binds j).shared with
  | none => rfl
  | some s => simp [heldBit, hsh] at hz

lemma regRun_spec (K : List Char) (paths : Nat → List Char) (N : Nat)
    (hp : ∀ i, SameDev K (paths i)) :
    ∀ (ops : List RegOp) (st : SimState) (f : Nat → Bool),
      GoodState K N st →
      (∀ op ∈ ops, RegOp.idx op < N) →
      (∀ i, i < N → ResidueF i ((st.binds i).shared).isSome
        (ops.filter fun op => RegOp.idx op == i) (f i)) →
      GoodState K N (regRun paths st ops) ∧
        ∀ i, i < N → (((regRun paths st ops).binds i).shared).isSome = f i := by
  intro ops
  induction ops with
  | nil =>
    intro st f hg _ hres
    exact ⟨hg, fun i hi => (residue_nil_inv (hres i hi)).symm⟩
  | cons op rest ih =>
    intro st f hg hidx hres
    have hidx' : ∀ o ∈ rest, RegOp.idx o < N :=
      fun o ho => hidx o (List.mem_cons_of_mem _ ho)
    cases op with
    | acq i0 =>
      have hi0 : i0 < N := hidx (RegOp.acq i0) (List.mem_cons_self _ _)
      have hres0 := hres i0 hi0
      rw [List.filter_cons_of_pos (by simp [RegOp.idx])] at hres0
      obtain ⟨hb, hrest⟩ := residue_acq_inv hres0
      have hnone : (st.binds i0).shared = none := by
        cases hsh : (st.binds i0).shared with
        | none => rfl
        | some s => simp [hsh] at hb
      rw [regRun_cons]
      rcases Nat.eq_zero_or_pos (heldCount N st.binds) with hz | hpos
      · -- no holder yet: the bind creates a fresh entry
        have hent : st.reg.entries = [] := hg.empty_of_zero hz
        have hall := all_none_of_heldCount_zero hz
        have hgnone : (cougar_get_shared_data st.reg.entries (paths i0)).2 = none := by
          rw [hent]
          rfl
        have hbind := bind_create st.reg (st.binds i0) (paths i0) hgnone
        have hst : regStep paths st (RegOp.acq i0) =
            { reg := ⟨[⟨st.reg.nextId, 1, false, paths i0, none⟩], st.reg.nextId + 1⟩,
              binds := Function.update st.binds i0
                { st.binds i0 with shared := some st.reg.nextId } } := by
          rw [regStep_acq, hbind]
          dsimp only
          rw [get_none_eq _ _ hgnone, hent]
          rfl
        have hC : heldCount N (regStep paths st (RegOp.acq i0)).binds = 1 := by
          rw [hst]
          dsimp only
          rw [heldCount_update N st.binds i0 _ hi0]
          have hS : (∑ j ∈ Finset.range N \ {i0}, heldBit (st.binds j)) = 0 :=
            Finset.sum_eq_zero fun j hj => by
              have hjN : j < N := Finset.mem_range.mp (Finset.mem_sdiff.mp hj).1
              simp [heldBit, hall j hjN]
          rw [hS]
          rfl
        refine ih (regStep paths st (RegOp.acq i0)) f ?_ hidx' ?_
        · constructor
          · intro h0
            rw [hC] at h0
            exact absurd h0 one_ne_zero
          · intro _
            refine ⟨⟨st.reg.nextId, 1, false, paths i0, none⟩, ?_, ?_, hp i0, ?_⟩
            · rw [hst]
            · rw [hC]
            · intro j hj s hs
              rw [hst] at hs
              dsimp only at hs
              by_cases hji : j = i0
              · subst hji
                rw [Function.update_same] at hs
                exact (Option.some.inj hs).symm
              · rw [Function.update_noteq hji] at hs
                rw [hall j hj] at hs
                exact Option.noConfusion hs
        · intro i hi
          by_cases hii : i = i0
          · subst hii
            have hsome : ((regStep paths st (RegOp.acq i)).binds i).shared =
                some st.reg.nextId := by
              rw [hst]
              dsimp only
              rw [Function.update_same]
            rw [hsome]
            rcases hrest with ⟨hl, hf⟩ | ⟨hl, hf⟩
            · rw [hl, hf]
              exact ResidueF.nil true
            · rw [hl, hf]
              exact ResidueF.one_rel
          · have hbs : (regStep paths st (RegOp.acq i0)).binds i = st.binds i := by
              rw [hst]
              dsimp only
              exact Function.update_noteq hii _ _
            have hfil : ((RegOp.acq i0 :: rest).filter fun op => RegOp.idx op == i) =
                rest.filter fun op => RegOp.idx op == i := by
              refine List.filter_cons_of_neg ?_
              simp only [RegOp.idx]
              exact fun hcc => hii (beq_iff_eq.mp hcc).symm
            rw [hbs, ← hfil]
            exact hres i hi
      · -- an entry exists: the bind increments its count
        obtain ⟨e, hent, hkref, hdev, hpt⟩ := hg.single_of_pos hpos
        have hget : cougar_get_shared_data st.reg.entries (paths i0) =
            ([{ e with kref := e.kref + 1 }], some e.id) := by
          rw [hent]
          exact get_single_match e (paths i0) (sameDev_compare (hp i0) hdev)
        have hbind := bind_found st.reg (st.binds i0) (paths i0) e.id (by rw [hget])
        have hst : regStep paths st (RegOp.acq i0) =
            { reg := ⟨[{ e with kref := e.kref + 1 }], st.reg.nextId⟩,
              binds := Function.update st.binds i0
                { st.binds i0 with shared := some e.id } } := by
          rw [regStep_acq, hbind]
          dsimp only
          rw [hget]
        have hsplit := heldCount_split N st.binds i0 hi0
        have hbit : heldBit (st.binds i0) = 0 := by simp [heldBit, hnone]
        have hC : heldCount N (regStep paths st (RegOp.acq i0)).binds =
            heldCount N st.binds + 1 := by
          rw [hst]
          dsimp only
          rw [heldCount_update N st.binds i0 _ hi0]
          have h1 : heldBit { st.binds i0 with shared := some e.id } = 1 := rfl
          rw [h1]
          omega
        refine ih (regStep paths st (RegOp.acq i0)) f ?_ hidx' ?_
        · constructor
          · intro h0
            rw [hC] at h0
            exact absurd h0 (by omega)
          · intro _
            refine ⟨{ e with kref := e.kref + 1 }, ?_, ?_, hdev, ?_⟩
            · rw [hst]
            · show e.kref + 1 = _
              rw [hC, hkref]
            · intro j hj s hs
              rw [hst] at hs
              dsimp only at hs
              by_cases hji : j = i0
              · subst hji
                rw [Function.update_same] at hs
                exact (Option.some.inj hs).symm
              · rw [Function.update_noteq hji] at hs
                exact hpt j hj s hs
        · intro i hi
          by_cases hii : i = i0
          · subst hii
            have hsome : ((regStep paths st (RegOp.acq i)).binds i).shared = some e.id := by
              rw [hst]
              dsimp only
              rw [Function.update_same]
            rw [hsome]
            rcases hrest with ⟨hl, hf⟩ | ⟨hl, hf⟩
            · rw [hl, hf]
              exact ResidueF.nil true
            · rw [hl, hf]
              exact ResidueF.one_rel
          · have hbs : (regStep paths st (RegOp.acq i0)).binds i = st.binds i := by
              rw [hst]
              dsimp only
              exact Function.update_noteq hii _ _
            have hfil : ((RegOp.acq i0 :: rest).filter fun op => RegOp.idx op == i) =
                rest.filter fun op => RegOp.idx op == i := by
              refine List.filter_cons_of_neg ?_
              simp only [RegOp.idx]
              exact fun hcc => hii (beq_iff_eq.mp hcc).symm
            rw [hbs, ← hfil]
            exact hres i hi
    | rel i0 =>
      have hi0 : i0 < N := hidx (RegOp.rel i0) (List.mem_cons_self _ _)
      have hres0 := hres i0 hi0
      rw [List.filter_cons_of_pos (by simp [RegOp.idx])] at hres0
      obtain ⟨hb, hfilt, hf⟩ := residue_rel_inv hres0
      obtain ⟨s0, hs0⟩ := Option.isSome_iff_exists.mp hb
      have hsplit := heldCount_split N st.binds i0 hi0
      have hbit : heldBit (st.binds i0) = 1 := by simp [heldBit, hs0]
      have hpos : 0 < heldCount N st.binds := by omega
      obtain ⟨e, hent, hkref, hdev, hpt⟩ := hg.single_of_pos hpos
      have hsid : s0 = e.id := hpt i0 hi0 s0 hs0
      have hrem : cougar_remove_shared_data st.reg.entries (st.binds i0) =
          (kref_put_shared st.reg.entries s0, { st.binds i0 with shared := none }) := by
        unfold cougar_remove_shared_data
        rw [hs0]
      rw [regRun_cons]
      by_cases hk1 : e.kref = 1
      · -- last holder: the entry is deleted
        have hput : kref_put_shared st.reg.entries s0 = [] := by
          rw [hent, hsid]
          unfold kref_put_shared
          rw [if_pos rfl, if_pos hk1]
        have hst : regStep paths st (RegOp.rel i0) =
            { reg := ⟨[], st.reg.nextId⟩,
              binds := Function.update st.binds i0
                { st.binds i0 with shared := none } } := by
          rw [regStep_rel, hrem]
          dsimp only
          rw [hput]
        have hC : heldCount N (regStep paths st (RegOp.rel i0)).binds = 0 := by
          rw [hst]
          dsimp only
          rw [heldCount_update N st.binds i0 _ hi0]
          have h0 : heldBit { st.binds i0 with shared := none } = 0 := rfl
          rw [h0]
          omega
        refine ih (regStep paths st (RegOp.rel i0)) f ?_ hidx' ?_
        · constructor
          · intro _
            rw [hst]
          · intro hpos'
            rw [hC] at hpos'
            exact absurd hpos' (lt_irrefl 0)
        · intro i hi
          by_cases hii : i = i0
          · subst hii
            have hsome : ((regStep paths st (RegOp.rel i)).binds i).shared = none := by
              rw [hst]
              dsimp only
              rw [Function.update_same]
            rw [hsome, hfilt, hf]
            exact ResidueF.nil false
          · have hbs : (regStep paths st (RegOp.rel i0)).binds i = st.binds i := by
              rw [hst]
              dsimp only
              exact Function.update_noteq hii _ _
            have hfil : ((RegOp.rel i0 :: rest).filter fun op => RegOp.idx op == i) =
                rest.filter fun op => RegOp.idx op == i := by
              refine List.filter_cons_of_neg ?_
              simp only [RegOp.idx]
              exact fun hcc => hii (beq_iff_eq.mp hcc).symm
            rw [hbs, ← hfil]
            exact hres i hi
      · -- other holders remain: the count is decremented
        have hput : kref_put_shared st.reg.entries s0 = [{ e with kref := e.kref - 1 }] := by
          rw [hent, hsid]
          unfold kref_put_shared
          rw [if_pos rfl, if_neg hk1]
        have hst : regStep paths st (RegOp.rel i0) =
            { reg := ⟨[{ e with kref := e.kref - 1 }], st.reg.nextId⟩,
              binds := Function.update st.binds i0
                { st.binds i0 with shared := none } } := by
          rw [regStep_rel, hrem]
          dsimp only
          rw [hput]
        have hC : heldCount N (regStep paths st (RegOp.rel i0)).binds =
            heldCount N st.binds - 1 := by
          rw [hst]
          dsimp only
          rw [heldCount_update N st.binds i0 _ hi0]
          have h0 : heldBit { st.binds i0 with shared := none } = 0 := rfl
          rw [h0]
          omega
        refine ih (regStep paths st (RegOp.rel i0)) f ?_ hidx' ?_
        · constructor
          · intro h0
            rw [hC] at h0
            exact absurd h0 (by omega)
          · intro _
            refine ⟨{ e with kref := e.kref - 1 }, ?_, ?_, hdev, ?_⟩
            · rw [hst]
            · show e.kref - 1 = _
              rw [hC, hkref]
            · intro j hj s hs
              rw [hst] at hs
              dsimp only at hs
              by_cases hji : j = i0
              · subst hji
                rw [Function.update_same] at hs
                exact Option.noConfusion hs
              · rw [Function.update_noteq hji] at hs
                exact hpt j hj s hs
        · intro i hi
          by_cases hii : i = i0
          · subst hii
            have hsome : ((regStep paths st (RegOp.rel i)).binds i).shared = none := by
              rw [hst]
              dsimp only
              rw [Function.update_same]
            rw [hsome, hfilt, hf]
            exact ResidueF.nil false
          · have hbs : (regStep paths st (RegOp.rel i0)).binds i = st.binds i := by
              rw [hst]
              dsimp only
              exact Function.update_noteq hii _ _
            have hfil : ((RegOp.rel i0 :: rest).filter fun op => RegOp.idx op == i) =
                rest.filter fun op => RegOp.idx op == i := by
              refine List.filter_cons_of_neg ?_
              simp only [RegOp.idx]
              exact fun hcc => hii (beq_iff_eq.mp hcc).symm
            rw [hbs, ← hfil]
            exact hres i hi

/-- Claim C2: reference counting.  For N ≥ 1 interfaces whose paths all carry
the same identity, starting from an empty registry: any interleaving in which
every interface binds once and later releases once leaves the registry with
the shared entry removed; any interleaving in which every interface binds once
but one of them never releases leaves exactly one entry, with referenceCount
1. -/
theorem cougar_refcount_lifecycle (K : List Char) (paths : Nat → List Char) (N : Nat)
    (hp : ∀ i, SameDev K (paths i)) (hN : 1 ≤ N) :
    (∀ ops : List RegOp,
      (∀ op ∈ ops, RegOp.idx op < N) →
      (∀ i, i < N → ops.filter (fun op => RegOp.idx op == i) =
        [RegOp.acq i, RegOp.rel i]) →
      (regRun paths initSim ops).reg.entries = []) ∧
    (∀ (ops : List RegOp) (j : Nat), j < N →
      (∀ op ∈ ops, RegOp.idx op < N) →
      (∀ i, i < N → ¬ i = j → ops.filter (fun op => RegOp.idx op == i) =
        [RegOp.acq i, RegOp.rel i]) →
      ops.filter (fun op => RegOp.idx op == j) = [RegOp.acq j] →
      ∃ e, (regRun paths initSim ops).reg.entries = [e] ∧ e.kref = 1) := by
  have hg0 : GoodState K N initSim := by
    constructor
    · intro _
      rfl
    · intro hpos
      have hz : heldCount N initSim.binds = 0 := Finset.sum_eq_zero fun j _ => rfl
      rw [hz] at hpos
      exact absurd hpos (lt_irrefl 0)
  constructor
  · intro ops hidx hfil
    have hres : ∀ i, i < N → ResidueF i ((initSim.binds i).shared).isSome
        (ops.filter fun op => RegOp.idx op == i) ((fun _ => false) i) := by
      intro i hi
      rw [hfil i hi]
      exact ResidueF.acq_rel
    have hmain := regRun_spec K paths N hp ops initSim (fun _ => false) hg0 hidx hres
    refine hmain.1.empty_of_zero (Finset.sum_eq_zero fun j hj => ?_)
    have hfj := hmain.2 j (Finset.mem_range.mp hj)
    simp [heldBit, hfj]
  · intro ops j hj hidx hfil hfj
    have hres : ∀ i, i < N → ResidueF i ((initSim.binds i).shared).isSome
        (ops.filter fun op => RegOp.idx op == i) ((fun i => i == j) i) := by
      intro i hi
      dsimp only
      by_cases hij : i = j
      · subst hij
        rw [hfj, show (i == i) = true from beq_self_eq_true i]
        exact ResidueF.one_acq
      · rw [hfil i hi hij, show (i == j) = false from beq_eq_false_iff_ne.mpr hij]
        exact ResidueF.acq_rel
    have hmain := regRun_spec K paths N hp ops initSim (fun i => i == j) hg0 hidx hres
    have hC1 : heldCount N (regRun paths initSim ops).binds = 1 := by
      rw [heldCount_split N _ j hj]
      have hbj : heldBit ((regRun paths initSim ops).binds j) = 1 := by
        have hfjj := hmain.2 j hj
        dsimp only at hfjj
        rw [show (j == j) = true from beq_self_eq_true j] at hfjj
        simp [heldBit, hfjj]
      have hS : (∑ i ∈ Finset.range N \ {j},
          heldBit ((regRun paths initSim ops).binds i)) = 0 := by
        refine Finset.sum_eq_zero fun i hi => ?_
        have hmem := Finset.mem_sdiff.mp hi
        have hiN : i < N := Finset.mem_range.mp hmem.1
        have hij : ¬ i = j := fun hc => hmem.2 (by simp [hc])
        have hfi := hmain.2 i hiN
        dsimp only at hfi
        rw [show (i == j) = false from beq_eq_false_iff_ne.mpr hij] at hfi
        simp [heldBit, hfi]
      rw [hbj, hS]
    obtain ⟨e, hent, hkref, -, -⟩ := hmain.1.single_of_pos (by rw [hC1]; exact one_pos)
    refine ⟨e, hent, ?_⟩
    rw [hkref, hC1]

/-- Claim C2 witness: two sibling interfaces on path "a/b"; both acquire then
both release (interleaved) leaves the registry empty; both acquire and only
one releases leaves one entry with count 1. -/
theorem cougar_refcount_lifecycle_witness :
    (∀ i : Nat, SameDev ['a'] ((fun _ => ['a', '/', 'b']) i)) ∧
    (regRun (fun _ => ['a', '/', 'b']) initSim
      [RegOp.acq 0, RegOp.acq 1, RegOp.rel 1, RegOp.rel 0]).reg.entries = [] ∧
    (∃ e, (regRun (fun _ => ['a', '/', 'b']) initSim
      [RegOp.acq 0, RegOp.acq 1, RegOp.rel 0]).reg.entries = [e] ∧ e.kref = 1) :=
  ⟨fun _ => (by decide : SameDev ['a'] ['a', '/', 'b']),
   (cougar_refcount_lifecycle ['a'] (fun _ => ['a', '/', 'b']) 2
      (fun _ => (by decide : SameDev ['a'] ['a', '/', 'b'])) (by decide)).1
      [RegOp.acq 0, RegOp.acq 1, RegOp.rel 1, RegOp.rel 0] (by decide) (by decide),
   (cougar_refcount_lifecycle ['a'] (fun _ => ['a', '/', 'b']) 2
      (fun _ => (by decide : SameDev ['a'] ['a', '/', 'b'])) (by decide)).2
      [RegOp.acq 0, RegOp.acq 1, RegOp.rel 0] 1 (by decide) (by decide) (by decide)
      (by decide)⟩

end HidCougar
